import Mathlib

/-!
Shallow embedding of the primitive-type system and the feature registry of
the natun feature engine (files `internal/engine/engine_bind.go` and the
`api` primitive-type file), together with proofs of the algebraic and
error-handling properties its specification states.

Conventions of the embedding:
  an operation that can only return normally is a plain function; an
  operation whose Go original can panic is modelled with an outer `Option`
  where `none` is the panic; a Go `(value, error)` pair becomes
  `Option Value × Option GoError` with `none` for Go `nil` on each side.
  Go `int` and `int64` are modelled as unbounded `Int` plus explicit
  64-bit range conditions where the original checks or assumes them.
-/

/-- The closed tag enumeration `PrimitiveType` from the api package:
five scalar tags, their five list counterparts, and Unknown (iota zero). -/
inductive PrimitiveType where
  | unknown
  | string
  | integer
  | float
  | boolean
  | timestamp
  | stringList
  | integerList
  | floatList
  | booleanList
  | timestampList
deriving DecidableEq, Repr

/-- Method `Scalar` of PrimitiveType: false exactly on the five list tags
(the default branch, which also catches Unknown, returns true). -/
def PrimitiveType.Scalar : PrimitiveType → Bool
  | .stringList => false
  | .integerList => false
  | .floatList => false
  | .booleanList => false
  | .timestampList => false
  | _ => true

/-- Method `Singular`: maps each list tag to its scalar tag; the default
branch returns the tag unchanged. -/
def PrimitiveType.Singular : PrimitiveType → PrimitiveType
  | .stringList => .string
  | .integerList => .integer
  | .floatList => .float
  | .booleanList => .boolean
  | .timestampList => .timestamp
  | pt => pt

/-- Method `Plural`: maps each scalar tag to its list tag; the default
branch returns the tag unchanged. -/
def PrimitiveType.Plural : PrimitiveType → PrimitiveType
  | .string => .stringList
  | .integer => .integerList
  | .float => .floatList
  | .boolean => .booleanList
  | .timestamp => .timestampList
  | pt => pt

/-- One character of strings.ToLower, on the ASCII range the compared
alias and reflect type strings draw from. -/
def asciiLower (c : Char) : Char :=
  if 65 ≤ c.toNat ∧ c.toNat ≤ 90 then Char.ofNat (c.toNat + 32) else c

/-- strings.ToLower as the alias table applies it: characterwise
lowering, which agrees with Go on every string built from the characters
the table's entries and Go's reflect type strings use. -/
def goToLower (s : String) : String :=
  String.mk (s.data.map asciiLower)

/-- `StringToPrimitiveType`: case-insensitive alias table over type-name
strings; unrecognized names yield Unknown. -/
def StringToPrimitiveType (s : String) : PrimitiveType :=
  let t := goToLower s
  if t = "string" ∨ t = "text" then .string
  else if t = "integer" ∨ t = "int" ∨ t = "int32" then .integer
  else if t = "float" ∨ t = "double" ∨ t = "float32" ∨ t = "float64" then .float
  else if t = "time" ∨ t = "datetime" ∨ t = "timestamp" ∨ t = "time.time" ∨
      t = "datetime.datetime" then .timestamp
  else if t = "bool" ∨ t = "boolean" then .boolean
  else if t = "[]string" ∨ t = "[]text" then .stringList
  else if t = "[]integer" ∨ t = "[]int" ∨ t = "[]int64" ∨ t = "[]int32" then .integerList
  else if t = "[]float" ∨ t = "[]double" ∨ t = "[]float32" ∨ t = "[]float64" then .floatList
  else if t = "[]bool" ∨ t = "[]boolean" then .booleanList
  else if t = "[]time" ∨ t = "[]datetime" ∨ t = "[]timestamp" ∨ t = "[]time.time" then
    .timestampList
  else .unknown

/-- Typed error sentinels surfaced by the embedded operations: the
AlreadyExists sentinel wrapped by bindFeature, the not-a-scalar-type error
of ScalarFromString, and the two strconv error kinds. -/
inductive GoError where
  | alreadyExists (fqn : String)
  | notScalar (pt : PrimitiveType)
  | parseErr
  | rangeErr
deriving DecidableEq, Repr

/-! ## strconv: decimal integer formatting and parsing -/

/-- ASCII character of a decimal digit, as strconv prints it. -/
def digitChar10 (d : Nat) : Char := Char.ofNat (48 + d)

/-- Decimal digit characters of a natural number, most significant first:
the output of strconv for a non-negative integer (Itoa and FormatInt in
base 10 agree on this). -/
def natChars (n : Nat) : List Char :=
  if n = 0 then ['0'] else (Nat.digits 10 n).reverse.map digitChar10

/-- Decimal value of one ASCII character, none when it is not a digit. -/
def digitVal (c : Char) : Option Nat :=
  if 48 ≤ c.toNat ∧ c.toNat ≤ 57 then some (c.toNat - 48) else none

/-- Accumulating scan of a digit string, none at the first non-digit. -/
def parseDigitsGo (acc : Nat) : List Char → Option Nat
  | [] => some acc
  | c :: cs =>
    match digitVal c with
    | some d => parseDigitsGo (10 * acc + d) cs
    | none => none

/-- Unsigned decimal parse: a non-empty all-digit string, as ParseUint
with base 10 accepts (no underscores at an explicit base). -/
def parseDigits (cs : List Char) : Option Nat :=
  if cs.isEmpty then none else parseDigitsGo 0 cs

/-- strconv.Itoa / strconv.FormatInt base 10: minus sign for negatives,
then the decimal digits. -/
def goItoa (n : Int) : String :=
  if n < 0 then ⟨'-' :: natChars n.natAbs⟩ else ⟨natChars n.toNat⟩

/-- Signed decimal syntax of ParseInt: one optional + or - sign followed
by a non-empty digit string, at full precision (range is checked after). -/
def goParseIntChars (cs : List Char) : Option Int :=
  match cs with
  | [] => none
  | c :: rest =>
    if c = '+' then
      match parseDigits rest with
      | some n => some ((n : Nat) : Int)
      | none => none
    else if c = '-' then
      match parseDigits rest with
      | some n => some (-((n : Nat) : Int))
      | none => none
    else
      match parseDigits (c :: rest) with
      | some n => some ((n : Nat) : Int)
      | none => none

/-- Smallest value of a 64-bit signed integer. -/
def int64Min : Int := -(2 ^ 63)

/-- Largest value of a 64-bit signed integer. -/
def int64Max : Int := 2 ^ 63 - 1

/-- strconv.Atoi (ParseInt with base 10 and the 64-bit int size): on a
syntax error it returns 0 with an error, on range overflow the nearest
representable bound with an error, otherwise the value with nil error. -/
def goAtoi (s : String) : Int × Option GoError :=
  match goParseIntChars s.toList with
  | none => (0, some .parseErr)
  | some n =>
    if n < int64Min then (int64Min, some .rangeErr)
    else if int64Max < n then (int64Max, some .rangeErr)
    else (n, none)

/-- strconv.FormatBool. -/
def goFormatBool (b : Bool) : String := if b then "true" else "false"

/-- strconv.ParseBool: the twelve accepted literals; anything else is a
syntax error (Go then returns false with the error). -/
def goParseBool (s : String) : Option Bool :=
  if s = "1" ∨ s = "t" ∨ s = "T" ∨ s = "TRUE" ∨ s = "true" ∨ s = "True" then some true
  else if s = "0" ∨ s = "f" ∨ s = "F" ∨ s = "FALSE" ∨ s = "false" ∨ s = "False" then some false
  else none

/-! ## Round-trip lemmas for the integer codec -/

theorem digitChar10_toNat {d : Nat} (h : d < 10) : (digitChar10 d).toNat = 48 + d := by
  interval_cases d <;> decide

theorem digitVal_digitChar10 {d : Nat} (h : d < 10) : digitVal (digitChar10 d) = some d := by
  simp only [digitVal, digitChar10_toNat h]
  rw [if_pos (by omega)]
  simp

theorem parseDigitsGo_map (L : List Nat) (h : ∀ d ∈ L, d < 10) (acc : Nat) :
    parseDigitsGo acc (L.map digitChar10) = some (L.foldl (fun a d => 10 * a + d) acc) := by
  induction L generalizing acc with
  | nil => simp [parseDigitsGo]
  | cons d tl ih =>
    have hd : d < 10 := h d (by simp)
    simp only [List.map_cons, parseDigitsGo, digitVal_digitChar10 hd, List.foldl_cons]
    exact ih (fun x hx => h x (by simp [hx])) (10 * acc + d)

theorem foldl_reverse_digits (n : Nat) :
    (Nat.digits 10 n).reverse.foldl (fun a d => 10 * a + d) 0 = n := by
  rw [List.foldl_reverse]
  have : ∀ L : List Nat, L.foldr (fun x y => 10 * y + x) 0 = Nat.ofDigits 10 L := by
    intro L
    induction L with
    | nil => simp [Nat.ofDigits]
    | cons d tl ih =>
      simp [Nat.ofDigits, ih]
      omega
  rw [this]
  exact_mod_cast Nat.ofDigits_digits 10 n

theorem parseDigits_natChars (n : Nat) : parseDigits (natChars n) = some n := by
  by_cases h0 : n = 0
  · subst h0; decide
  · have hne : Nat.digits 10 n ≠ [] := Nat.digits_ne_nil_iff_ne_zero.mpr h0
    simp only [natChars, if_neg h0, parseDigits]
    rw [if_neg (by simp [List.isEmpty_iff, hne])]
    rw [parseDigitsGo_map _ (fun d hd => Nat.digits_lt_base (by norm_num) (List.mem_reverse.mp hd)) 0]
    rw [foldl_reverse_digits]

theorem natChars_digits (n : Nat) : ∀ c ∈ natChars n, 48 ≤ c.toNat ∧ c.toNat ≤ 57 := by
  intro c hc
  by_cases h0 : n = 0
  · subst h0; simp [natChars] at hc; subst hc; decide
  · simp only [natChars, if_neg h0, List.mem_map] at hc
    obtain ⟨d, hd, rfl⟩ := hc
    have : d < 10 := Nat.digits_lt_base (by norm_num) (List.mem_reverse.mp hd)
    rw [digitChar10_toNat this]
    omega

theorem goAtoi_goItoa (n : Int) (hlo : int64Min ≤ n) (hhi : n ≤ int64Max) :
    goAtoi (goItoa n) = (n, none) := by
  have hlo2 : -(2 ^ 63) ≤ n := by simpa [int64Min] using hlo
  have hhi2 : n ≤ 2 ^ 63 - 1 := by simpa [int64Max] using hhi
  by_cases hn : n < 0
  · simp only [goItoa, if_pos hn]
    have h1 : goParseIntChars (String.mk ('-' :: natChars n.natAbs)).toList
        = match parseDigits (natChars n.natAbs) with
          | some m => some (-((m : Nat) : Int))
          | none => none := rfl
    have habs : (n.natAbs : Int) = -n := by omega
    simp only [goAtoi, h1, parseDigits_natChars, habs]
    rw [if_neg (by simp only [int64Min]; omega), if_neg (by simp only [int64Max]; omega)]
    rw [neg_neg]
  · simp only [goItoa, if_neg hn]
    obtain ⟨c, rest, hcr⟩ : ∃ c rest, natChars n.toNat = c :: rest := by
      rcases h : natChars n.toNat with _ | ⟨c, rest⟩
      · exfalso
        by_cases h0 : n.toNat = 0 <;> simp [natChars, h0] at h
        exact Nat.digits_ne_nil_iff_ne_zero.mpr h0 (by simpa using h)
      · exact ⟨c, rest, rfl⟩
    have hdig := natChars_digits n.toNat c (by rw [hcr]; exact List.mem_cons_self c rest)
    have hcd : c ≠ '+' ∧ c ≠ '-' := by
      constructor <;> intro h <;> subst h <;> exact absurd hdig (by decide)
    have h1 : goParseIntChars (String.mk (natChars n.toNat)).toList
        = match parseDigits (natChars n.toNat) with
          | some m => some ((m : Nat) : Int)
          | none => none := by
      rw [show (String.mk (natChars n.toNat)).toList = natChars n.toNat from rfl, hcr]
      simp only [goParseIntChars]
      rw [if_neg hcd.1, if_neg hcd.2, ← hcr]
    have habs : (n.toNat : Int) = n := by omega
    simp only [goAtoi, h1, parseDigits_natChars, habs]
    rw [if_neg (by simp only [int64Min]; omega), if_neg (by simp only [int64Max]; omega)]

/-! ## The dynamic value boundary -/

/-- Interface to strconv.FormatFloat(f, 'f', -1, 64) and
strconv.ParseFloat(s, 64). Their implementation is the Go standard
library's, outside this repository; the one fact the code relies on is
strconv's documented guarantee that precision -1 formats with exactly the
digits ParseFloat needs to return the same float64 value, stated here as
the field `law` over an abstract carrier of float64 values. -/
structure FloatCodec where
  F : Type
  fmt : F → String
  parse : String → Option F
  zero : F
  law : ∀ x : F, parse (fmt x) = some x

/-- A dynamically typed Go value (an `any`) as the api package inspects
it: the five scalar shapes the code handles, a generic `[]any` list, a
typed slice `[]T` as produced by NormalizeAny, and a catch-all for any
other Go value, visible to the code only through its reflect type string.
A time.Time is carried as its microsecond count (`UnixMicro`), the
precision at which the code serializes it. -/
inductive GoDyn (F : Type) where
  | str (s : String)
  | int (n : Int)
  | float (x : F)
  | bool (b : Bool)
  | time (micros : Int)
  | list (xs : List (GoDyn F))
  | typedList (elemType : String) (xs : List (GoDyn F))
  | other (typeName : String)

/-- The reflect type string of a dynamic value: what
reflect.TypeOf(v).String() prints, and the equality the code tests when it
compares the reflect types of two values. -/
def goTypeOf {F : Type} : GoDyn F → String
  | .str _ => "string"
  | .int _ => "int"
  | .float _ => "float64"
  | .bool _ => "bool"
  | .time _ => "time.Time"
  | .list _ => "[]interface \x7b\x7d"
  | .typedList t _ => "[]" ++ t
  | .other t => t

/-- `TypeDetect`: on a `[]any` it compares every element's reflect type
with element 0's, returning Unknown at the first mismatch, and otherwise
recurses into element 0 and pluralizes; on anything else it looks the
reflect type string up in the alias table. The outer `none` is the panic
of indexing element 0 of an empty `[]any` (both inside the loop and in the
recursive call). -/
def TypeDetect {F : Type} : GoDyn F → Option PrimitiveType
  | .list [] => none
  | .list (x :: xs) =>
    if xs.all (fun v => goTypeOf v == goTypeOf x) then
      (TypeDetect x).map PrimitiveType.Plural
    else some .unknown
  | v => some (StringToPrimitiveType (goTypeOf v))

/-- `ScalarString`: formats the five scalar shapes it knows (a time.Time
through its UnixMicro count in decimal); every other dynamic value hits
the panic("unreachable") default branch, modelled as `none`. The function
has no error return. -/
def ScalarString (c : FloatCodec) : GoDyn c.F → Option String
  | .str s => some s
  | .int n => some (goItoa n)
  | .float x => some (c.fmt x)
  | .bool b => some (goFormatBool b)
  | .time m => some (goItoa m)
  | _ => none

/-- `ScalarFromString`: a list tag is rejected with a not-a-scalar error;
the five scalar tags dispatch to strconv (returning strconv's value and
error as Go does, so a failed integer parse still carries the zero value);
the Timestamp branch checks the parse error before building the time. The
remaining tag, Unknown, passes the Scalar() guard and falls into the
panic("unreachable") default branch, modelled as the outer `none`. -/
def ScalarFromString (c : FloatCodec) (val : String) (scalar : PrimitiveType) :
    Option (Option (GoDyn c.F) × Option GoError) :=
  if scalar.Scalar = false then some (none, some (.notScalar scalar))
  else
    match scalar with
    | .string => some (some (.str val), none)
    | .integer => some (some (.int (goAtoi val).1), (goAtoi val).2)
    | .float =>
      match c.parse val with
      | some x => some (some (.float x), none)
      | none => some (some (.float c.zero), some .parseErr)
    | .boolean =>
      match goParseBool val with
      | some b => some (some (.bool b), none)
      | none => some (some (.bool false), some .parseErr)
    | .timestamp =>
      match goAtoi val with
      | (n, none) => some (some (.time n), none)
      | (_, some e) => some (none, some e)
    | _ => none

/-- `NormalizeAny`: an empty `[]any` becomes (nil, nil); a non-empty
`[]any` is repacked into a typed slice whose element type is element 0's
reflect type, with each element assigned by reflect.Value.Set — which
panics (outer `none`) at the first element whose reflect type differs from
element 0's; every non-`[]any` value passes through unchanged. No branch
returns a non-nil error. -/
def NormalizeAny {F : Type} (t : GoDyn F) : Option (Option (GoDyn F) × Option GoError) :=
  match t with
  | .list [] => some (none, none)
  | .list (x :: xs) =>
    if xs.all (fun v => goTypeOf v == goTypeOf x) then
      some (some (.typedList (goTypeOf x) (x :: xs)), none)
    else none
  | v => some (some v, none)

/-! ## The feature registry ("the engine") -/

/-- A bound Feature as the registry stores it: its FQN plus the rest of
the descriptor and the builder-populated runtime fields, which bindFeature
stores opaquely and never inspects, collapsed here into one payload
field. -/
structure Feature where
  FQN : String
  payload : String
deriving DecidableEq, Repr

/-- Store into the engine's features map (sync.Map.Store): replace the
binding for the key when present, otherwise add it. -/
def mapStore (m : List (String × Feature)) (k : String) (v : Feature) :
    List (String × Feature) :=
  match m with
  | [] => [(k, v)]
  | (k2, v2) :: rest => if k2 = k then (k, v) :: rest else (k2, v2) :: mapStore rest k v

/-- Delete from the engine's features map (sync.Map.Delete). -/
def mapDelete (m : List (String × Feature)) (k : String) : List (String × Feature) :=
  m.filter (fun p => p.1 ≠ k)

/-- The engine state the bind claims touch: the concurrent FQN-to-Feature
map, as an association list, and the process-wide feature counter.
Modelled from the spec: the counter is the gauge behind
stats.IncNumberOfFeatures and stats.DecNumberOfFeatures (the
internal/stats package is not among the shown sources); per the spec it is
a process-wide feature counter that Inc raises by one and Dec lowers by
one. -/
structure EngineState where
  features : List (String × Feature)
  counter : Int
deriving DecidableEq, Repr

/-- `HasFeature`: a load on the features map, true when the FQN is
bound. -/
def hasFeature (e : EngineState) (fqn : String) : Bool :=
  (e.features.lookup fqn).isSome

/-- `bindFeature`: the deferred stats.IncNumberOfFeatures runs on every
return path, so the counter rises whether or not the FQN was already
bound; an already-bound FQN returns the wrapped AlreadyExists sentinel
without storing, otherwise the Feature is stored under its FQN. -/
def bindFeature (e : EngineState) (f : Feature) : EngineState × Option GoError :=
  if hasFeature e f.FQN then
    ({ e with counter := e.counter + 1 }, some (.alreadyExists f.FQN))
  else
    ({ features := mapStore e.features f.FQN f, counter := e.counter + 1 }, none)

/-- `UnbindFeature`: deletes unconditionally, decrements the counter
(also deferred, so on every return path), and returns nil. -/
def unbindFeature (e : EngineState) (fqn : String) : EngineState × Option GoError :=
  ({ features := mapDelete e.features fqn, counter := e.counter - 1 }, none)

/-! ## Helper definitions and lemmas -/

/-- True exactly on the five dynamic value shapes ScalarString formats;
everything else falls into its panic branch. -/
def isScalarShape {F : Type} : GoDyn F → Bool
  | .str _ => true
  | .int _ => true
  | .float _ => true
  | .bool _ => true
  | .time _ => true
  | _ => false

/-- True exactly on a generic `[]any` list. -/
def isGenericList {F : Type} : GoDyn F → Bool
  | .list _ => true
  | _ => false

/-- Carrier relation between a dynamic value and the scalar tag naming
its shape. -/
def dynHasTag {F : Type} : GoDyn F → PrimitiveType → Bool
  | .str _, .string => true
  | .int _, .integer => true
  | .float _, .float => true
  | .bool _, .boolean => true
  | .time _, .timestamp => true
  | _, _ => false

/-- The integer payloads a Go int or an int64 UnixMicro count can carry. -/
def dynInt64 {F : Type} : GoDyn F → Bool
  | .int n => decide (int64Min ≤ n ∧ n ≤ int64Max)
  | .time m => decide (int64Min ≤ m ∧ m ≤ int64Max)
  | _ => true

/-- A concrete float codec over a one-point carrier, instantiating the
strconv float interface in witnesses. -/
def unitFloatCodec : FloatCodec where
  F := Unit
  fmt := fun _ => "0"
  parse := fun s => if s = "0" then some () else none
  zero := ()
  law := by intro x; cases x; simp

theorem lookup_mapDelete (m : List (String × Feature)) (k : String) :
    (mapDelete m k).lookup k = none := by
  induction m with
  | nil => rfl
  | cons p rest ih =>
    by_cases h : p.1 = k
    · simpa [mapDelete, List.filter_cons, h] using ih
    · cases p with
      | mk k2 v2 =>
        simp only at h
        have hb : (k == k2) = false := beq_eq_false_iff_ne.mpr fun hh => h hh.symm
        simp [mapDelete, List.filter_cons, h, List.lookup, hb, ih]
        exact fun a b _ hak hka => hak hka.symm

/-- Any pair of elements of a list disagreeing on reflect type yields an
element of the tail disagreeing with the head, which is the comparison
the loops in TypeDetect and NormalizeAny actually make. -/
theorem exists_tail_mem_ne_head {F : Type} {y0 a b : GoDyn F} {rest : List (GoDyn F)}
    (ha : a ∈ y0 :: rest) (hb : b ∈ y0 :: rest) (hab : goTypeOf a ≠ goTypeOf b) :
    ∃ v ∈ rest, goTypeOf v ≠ goTypeOf y0 := by
  by_cases h1 : goTypeOf a = goTypeOf y0
  · have h2 : goTypeOf b ≠ goTypeOf y0 := fun h => hab (h1.trans h.symm)
    have hbr : b ∈ rest := by
      rcases List.mem_cons.mp hb with rfl | h
      · exact absurd rfl h2
      · exact h
    exact ⟨b, hbr, h2⟩
  · have har : a ∈ rest := by
      rcases List.mem_cons.mp ha with rfl | h
      · exact absurd rfl h1
      · exact h
    exact ⟨a, har, h1⟩

theorem all_typeEq_false {F : Type} {x : GoDyn F} {xs : List (GoDyn F)}
    (h : ∃ v ∈ xs, goTypeOf v ≠ goTypeOf x) :
    xs.all (fun v => goTypeOf v == goTypeOf x) = false := by
  obtain ⟨v, hv, hne⟩ := h
  rw [List.all_eq_false]
  exact ⟨v, hv, by simpa using hne⟩

/-! ## Claim theorems -/

/-- C2 counterexample: the claim's first conjunct, Plural(Singular(t)) = t
for every scalar tag t, fails at t = String: Singular leaves a scalar tag
unchanged and Plural then yields StringList, not String. -/
theorem singular_plural_cex :
    (PrimitiveType.string.Singular).Plural ≠ PrimitiveType.string := by decide

/-- C2 (amended): the pairing invariant with the compositions the code
satisfies: Singular(Plural(t)) = t for every scalar tag t,
Plural(Singular(t)) = t for every list tag t, and Unknown is a fixed point
of both. -/
theorem singular_plural_pairing (t : PrimitiveType) :
    (t.Scalar = true → (t.Plural).Singular = t) ∧
    (t.Scalar = false → (t.Singular).Plural = t) ∧
    PrimitiveType.unknown.Singular = PrimitiveType.unknown ∧
    PrimitiveType.unknown.Plural = PrimitiveType.unknown := by
  cases t <;> exact (by decide)

/-- C2 witness: the pairing invariant applied at the Integer and
IntegerList tags. -/
theorem singular_plural_pairing_witness :
    (PrimitiveType.integer.Plural).Singular = PrimitiveType.integer ∧
    (PrimitiveType.integerList.Singular).Plural = PrimitiveType.integerList :=
  ⟨(singular_plural_pairing PrimitiveType.integer).1 rfl,
   (singular_plural_pairing PrimitiveType.integerList).2.1 rfl⟩

/-- C6: when an FQN is already bound, a second bindFeature of the same
FQN returns the wrapped AlreadyExists error, leaves the whole features map
(and in particular the originally bound Feature) unchanged. -/
theorem bind_already_exists (e : EngineState) (f f0 : Feature)
    (h : e.features.lookup f.FQN = some f0) :
    (bindFeature e f).2 = some (.alreadyExists f.FQN) ∧
    (bindFeature e f).1.features = e.features ∧
    (bindFeature e f).1.features.lookup f.FQN = some f0 := by
  have hb : hasFeature e f.FQN = true := by simp [hasFeature, h]
  simp [bindFeature, hb, h]

/-- C6 witness: binding an FQN already bound to a different Feature. -/
theorem bind_already_exists_witness :
    (bindFeature ⟨[("ns.f1", ⟨"ns.f1", "orig"⟩)], 1⟩ ⟨"ns.f1", "new"⟩).2 =
      some (.alreadyExists "ns.f1") ∧
    (bindFeature ⟨[("ns.f1", ⟨"ns.f1", "orig"⟩)], 1⟩ ⟨"ns.f1", "new"⟩).1.features =
      [("ns.f1", ⟨"ns.f1", "orig"⟩)] ∧
    (bindFeature ⟨[("ns.f1", ⟨"ns.f1", "orig"⟩)], 1⟩ ⟨"ns.f1", "new"⟩).1.features.lookup "ns.f1" =
      some ⟨"ns.f1", "orig"⟩ :=
  bind_already_exists ⟨[("ns.f1", ⟨"ns.f1", "orig"⟩)], 1⟩ ⟨"ns.f1", "new"⟩
    ⟨"ns.f1", "orig"⟩ (by decide)

/-- C7 counterexample: a bind that fails with AlreadyExists does not
leave the counter unchanged: the deferred increment runs on the error
return path too, raising the counter from 5 to 6. -/
theorem bind_counter_cex :
    (bindFeature ⟨[("ns.f1", ⟨"ns.f1", "d"⟩)], 5⟩ ⟨"ns.f1", "d2"⟩).2 =
      some (.alreadyExists "ns.f1") ∧
    (bindFeature ⟨[("ns.f1", ⟨"ns.f1", "d"⟩)], 5⟩ ⟨"ns.f1", "d2"⟩).1.counter = 6 := by
  decide

/-- C7 (amended): the deferred stats increment runs on every return path
of bindFeature, so the counter rises by exactly one on every call, on
success and on an AlreadyExists failure alike. -/
theorem bind_increments_always (e : EngineState) (f : Feature) :
    (bindFeature e f).1.counter = e.counter + 1 := by
  by_cases h : hasFeature e f.FQN <;> simp [bindFeature, h]

/-- C8: UnbindFeature returns no error for any FQN, bound or never
bound; afterwards HasFeature on that FQN is false; and a second unbind of
the same FQN returns no error either. -/
theorem unbind_idempotent (e : EngineState) (fqn : String) :
    (unbindFeature e fqn).2 = none ∧
    hasFeature (unbindFeature e fqn).1 fqn = false ∧
    (unbindFeature (unbindFeature e fqn).1 fqn).2 = none := by
  refine ⟨rfl, ?_, rfl⟩
  simp [unbindFeature, hasFeature, lookup_mapDelete]

/-- C9: NormalizeAny of an empty generic list returns the Go pair
(nil, nil): an absent value and no error, not an empty typed slice. -/
theorem normalize_empty (F : Type) :
    NormalizeAny (GoDyn.list ([] : List (GoDyn F))) = some (none, none) := rfl

/-- C10: TypeDetect of an empty generic list returns no PrimitiveType at
all: after the vacuous homogeneity loop it indexes element 0 of the empty
slice, and evaluation fails (the outer none) instead of producing
Unknown. -/
theorem typeDetect_empty_panics (F : Type) :
    TypeDetect (GoDyn.list ([] : List (GoDyn F))) = none := rfl

/-- C3: TypeDetect on generic lists. A non-empty list whose elements all
share the reflect type of a non-list element with detected tag t yields
Plural(t); a list with two elements of differing reflect types yields
Unknown, never a silently coerced list tag. -/
theorem typeDetect_lists (F : Type) :
    (∀ (x : GoDyn F) (xs : List (GoDyn F)) (t : PrimitiveType),
      isGenericList x = false →
      (∀ y ∈ xs, goTypeOf y = goTypeOf x) →
      StringToPrimitiveType (goTypeOf x) = t →
      TypeDetect (GoDyn.list (x :: xs)) = some t.Plural) ∧
    (∀ (ys : List (GoDyn F)) (a b : GoDyn F), a ∈ ys → b ∈ ys →
      goTypeOf a ≠ goTypeOf b →
      TypeDetect (GoDyn.list ys) = some PrimitiveType.unknown) := by
  constructor
  · intro x xs t hx hall ht
    have hcond : xs.all (fun v => goTypeOf v == goTypeOf x) = true := by
      rw [List.all_eq_true]
      exact fun v hv => beq_iff_eq.mpr (hall v hv)
    have hdx : TypeDetect x = some (StringToPrimitiveType (goTypeOf x)) := by
      cases x <;> first | rfl | simp [isGenericList] at hx
    simp [TypeDetect, hcond, hdx, ht]
  · intro ys a b ha hb hab
    obtain ⟨y0, rest, rfl⟩ : ∃ y0 rest, ys = y0 :: rest := by
      cases ys with
      | nil => cases ha
      | cons y0 rest => exact ⟨y0, rest, rfl⟩
    have hcond := all_typeEq_false (exists_tail_mem_ne_head ha hb hab)
    simp [TypeDetect, hcond]

/-- C3 witness: a homogeneous integer list detects as IntegerList; a
mixed integer and string list detects as Unknown. -/
theorem typeDetect_lists_witness :
    TypeDetect (GoDyn.list [GoDyn.int 3, GoDyn.int 5] : GoDyn Unit) =
      some PrimitiveType.integerList ∧
    TypeDetect (GoDyn.list [GoDyn.int 1, GoDyn.str "a"] : GoDyn Unit) =
      some PrimitiveType.unknown := by
  constructor
  · exact (typeDetect_lists Unit).1 (GoDyn.int 3) [GoDyn.int 5] PrimitiveType.integer
      (by decide) (by intro y hy; simp at hy; subst hy; rfl) rfl
  · exact (typeDetect_lists Unit).2 [GoDyn.int 1, GoDyn.str "a"]
      (GoDyn.int 1) (GoDyn.str "a") (by simp) (by simp) (by decide)

/-- C4 counterexample: on the mixed generic list [1, "a"] NormalizeAny
does not return a TypeMismatch error: the reflect assignment of the second
element panics, modelled as the outer none, so no (value, error) pair
reaches the caller at all. -/
theorem normalize_mixed_cex :
    NormalizeAny (GoDyn.list [GoDyn.int 1, GoDyn.str "a"] : GoDyn Unit) = none := rfl

/-- C4 (amended): on every non-empty generic list with two elements of
differing reflect types, NormalizeAny aborts: reflect.Value.Set panics at
the first element whose type differs from element 0's, so the function
neither succeeds nor returns an error (its error result is nil on every
normal return path). -/
theorem normalize_mixed_panics (F : Type) (ys : List (GoDyn F)) (a b : GoDyn F)
    (ha : a ∈ ys) (hb : b ∈ ys) (hab : goTypeOf a ≠ goTypeOf b) :
    NormalizeAny (GoDyn.list ys) = none := by
  obtain ⟨y0, rest, rfl⟩ : ∃ y0 rest, ys = y0 :: rest := by
    cases ys with
    | nil => cases ha
    | cons y0 rest => exact ⟨y0, rest, rfl⟩
  have hcond := all_typeEq_false (exists_tail_mem_ne_head ha hb hab)
  simp [NormalizeAny, hcond]

/-- C4 witness: the amended statement applied to the list [1, "a"]. -/
theorem normalize_mixed_panics_witness :
    NormalizeAny (GoDyn.list [GoDyn.int 1, GoDyn.str "true"] : GoDyn Unit) = none :=
  normalize_mixed_panics Unit [GoDyn.int 1, GoDyn.str "true"]
    (GoDyn.int 1) (GoDyn.str "true") (by simp) (by simp) (by decide)

/-- C5 counterexample: ScalarString applied to a list-typed value does
not fail with an error: the function has no error result and its default
branch panics, modelled as none, so nothing is reported to the caller. -/
theorem scalarString_list_cex :
    ScalarString unitFloatCodec (GoDyn.list []) = none := rfl

/-- C5 (amended): both contract violations, as the code actually treats
them: ScalarFromString with a non-scalar (list) tag returns a nil value
with the not-a-scalar error, while ScalarString on a value outside the
five scalar shapes panics and returns nothing at all. -/
theorem scalar_contract_violations (c : FloatCodec) (v : GoDyn c.F)
    (s : String) (t : PrimitiveType)
    (hv : isScalarShape v = false) (ht : t.Scalar = false) :
    ScalarString c v = none ∧
    ScalarFromString c s t = some (none, some (.notScalar t)) := by
  constructor
  · cases v <;> first | rfl | simp [isScalarShape] at hv
  · simp [ScalarFromString, ht]

/-- C5 witness: the amended statement at a generic list value and the
StringList tag. -/
theorem scalar_contract_violations_witness :
    ScalarString unitFloatCodec (GoDyn.list [GoDyn.int 1]) = none ∧
    ScalarFromString unitFloatCodec "x" PrimitiveType.stringList =
      some (none, some (.notScalar PrimitiveType.stringList)) :=
  scalar_contract_violations unitFloatCodec (GoDyn.list [GoDyn.int 1]) "x"
    PrimitiveType.stringList (by decide) (by decide)

/-- C1: the scalar string round-trip law: for every scalar tag t and
dynamic value v of that shape (an integer or microsecond timestamp
payload being a 64-bit value, as Go guarantees), parsing the printed form
back at tag t returns exactly v with no error; the float leg holds for
any codec satisfying strconv's documented shortest-round-trip
guarantee. -/
theorem scalar_string_roundtrip (c : FloatCodec) (v : GoDyn c.F) (t : PrimitiveType)
    (ht : dynHasTag v t = true) (hr : dynInt64 v = true) :
    (ScalarString c v).bind (fun s => ScalarFromString c s t) = some (some v, none) := by
  cases v with
  | str s =>
    cases t <;> simp [dynHasTag] at ht
    rfl
  | int n =>
    cases t <;> simp [dynHasTag] at ht
    have hb : int64Min ≤ n ∧ n ≤ int64Max := by simpa [dynInt64] using hr
    simp [ScalarString, ScalarFromString, PrimitiveType.Scalar, goAtoi_goItoa n hb.1 hb.2]
  | float x =>
    cases t <;> simp [dynHasTag] at ht
    simp [ScalarString, ScalarFromString, PrimitiveType.Scalar, c.law]
  | bool b =>
    cases t <;> simp [dynHasTag] at ht
    cases b <;> rfl
  | time m =>
    cases t <;> simp [dynHasTag] at ht
    have hb : int64Min ≤ m ∧ m ≤ int64Max := by simpa [dynInt64] using hr
    simp [ScalarString, ScalarFromString, PrimitiveType.Scalar, goAtoi_goItoa m hb.1 hb.2]
  | list xs => cases t <;> simp [dynHasTag] at ht
  | typedList ty xs => cases t <;> simp [dynHasTag] at ht
  | other ty => cases t <;> simp [dynHasTag] at ht

/-- C1 witness: the round trip at one value of each scalar tag, with the
unit codec standing in for strconv's float formatting. -/
theorem scalar_string_roundtrip_witness :
    (ScalarString unitFloatCodec (GoDyn.str "hello")).bind
      (fun s => ScalarFromString unitFloatCodec s PrimitiveType.string) =
      some (some (GoDyn.str "hello"), none) ∧
    (ScalarString unitFloatCodec (GoDyn.int (-42))).bind
      (fun s => ScalarFromString unitFloatCodec s PrimitiveType.integer) =
      some (some (GoDyn.int (-42)), none) ∧
    (ScalarString unitFloatCodec (GoDyn.float ())).bind
      (fun s => ScalarFromString unitFloatCodec s PrimitiveType.float) =
      some (some (GoDyn.float ()), none) ∧
    (ScalarString unitFloatCodec (GoDyn.bool true)).bind
      (fun s => ScalarFromString unitFloatCodec s PrimitiveType.boolean) =
      some (some (GoDyn.bool true), none) ∧
    (ScalarString unitFloatCodec (GoDyn.time 1660000000000000)).bind
      (fun s => ScalarFromString unitFloatCodec s PrimitiveType.timestamp) =
      some (some (GoDyn.time 1660000000000000), none) :=
  ⟨scalar_string_roundtrip unitFloatCodec (GoDyn.str "hello") PrimitiveType.string
      (by decide) (by decide),
   scalar_string_roundtrip unitFloatCodec (GoDyn.int (-42)) PrimitiveType.integer
      (by decide) (by decide),
   scalar_string_roundtrip unitFloatCodec (GoDyn.float ()) PrimitiveType.float
      (by decide) (by decide),
   scalar_string_roundtrip unitFloatCodec (GoDyn.bool true) PrimitiveType.boolean
      (by decide) (by decide),
   scalar_string_roundtrip unitFloatCodec (GoDyn.time 1660000000000000) PrimitiveType.timestamp
      (by decide) (by decide)⟩
